import Mathlib

/-!
Verification of the forward-mode-gradients utility
(tensorflow/contrib/nn/python/ops/fwd_gradients.py).

The function under study composes two applications of a reverse-mode
automatic-differentiation primitive to obtain forward-mode (directional)
derivatives.  The file embeds a small computation-graph language, a
reverse-mode differentiation primitive matching the contract the spec gives
for the external framework, and a line-by-line transcription of
fwd_gradients, and then proves the spec's testable properties about it.

Scalars are modelled exactly: a floating-point value is an integer or the
distinguished not-a-number element (Option ℤ, with none standing for NaN,
which propagates through arithmetic).
-/

namespace FwdGrad

/-- Scalar values: an exact number or NaN (none). -/
abbrev Sc := Option ℤ

/-- Addition with NaN propagation. -/
def scAdd : Sc → Sc → Sc
  | some a, some b => some (a + b)
  | _, _ => none

/-- Multiplication with NaN propagation (as for IEEE floats, NaN * 0 = NaN). -/
def scMul : Sc → Sc → Sc
  | some a, some b => some (a * b)
  | _, _ => none

/-- Computation-graph nodes.  A node is a handle to a tensor-valued
subgraph; it carries enough structure for exact shape inference.

* var: a caller-created input tensor, identified by an id that keys into an
  evaluation environment.
* dual: the synthetic dual placeholder the function builds for ys[id],
  i.e. the graph node for zeros_like(y) + float NaN.  The id records the
  identity of the freshly registered graph node (two duals built for
  different ys are distinct graph nodes even when their shapes agree); its
  value is a NaN-filled tensor of the given shape.
* fill: a constant tensor filled with one scalar (zeros_like / ones_like).
* add, mul: elementwise arithmetic.
* gather: selection of elements of a 1-D tensor at the given indices.
* scatter: the dense tensor obtained from an indexed-slices value
  (indices, values) of the given dense shape; this is what
  convert_to_tensor produces from a tf.IndexedSlices.
* assertNode: a control-flow assertion; evaluating it fails when the
  condition is false (tf.Assert).
* gated: identity pass-through of x that carries a control dependency on
  dep: evaluating it evaluates dep first (for its effect) and returns x. -/
inductive Node where
  | var (id : Nat) (sh : List Nat)
  | dual (id : Nat) (sh : List Nat)
  | fill (c : Sc) (sh : List Nat)
  | add (a b : Node)
  | mul (a b : Node)
  | gather (a : Node) (idx : List Nat)
  | scatter (idx : List Nat) (v : Node) (sh : List Nat)
  | assertNode (cond : Bool)
  | gated (dep : Node) (x : Node)
deriving DecidableEq, Repr

/-- Static shape of a node (exact shape inference). -/
def shape : Node → List Nat
  | .var _ s => s
  | .dual _ s => s
  | .fill _ s => s
  | .add a _ => shape a
  | .mul a _ => shape a
  | .gather _ idx => [idx.length]
  | .scatter _ _ s => s
  | .assertNode _ => []
  | .gated _ x => shape x

/-- zeros_like from array_ops: a zero-filled tensor of the node's shape. -/
def zeros_like (n : Node) : Node := .fill (some 0) (shape n)

/-- ones_like: a one-filled tensor of the node's shape (the default seed
the reverse-mode primitive uses when no output gradients are supplied). -/
def ones_like (n : Node) : Node := .fill (some 1) (shape n)

/-- Modelled from the spec: the reverse-mode differentiation primitive
(tensorflow.python.ops.gradients_impl.gradients is not part of the source
slice) "may return either dense or sparse/indexed representations", so a
single returned gradient is a tagged variant: a dense node, or an
indexed-slices value (nonzero indices, their values, and the dense shape),
as produced for gather-style operations. -/
inductive GradVal where
  | dense (n : Node)
  | sparse (idx : List Nat) (v : Node) (sh : List Nat)
deriving DecidableEq, Repr

/-- ops.convert_to_tensor on a gradient result: a dense node is already a
tensor; an indexed-slices value densifies to the corresponding scatter. -/
def to_dense : GradVal → Node
  | .dense n => n
  | .sparse idx v sh => .scatter idx v sh

/-- Shape of a returned gradient (for indexed slices, the dense shape). -/
def gshape : GradVal → List Nat
  | .dense n => shape n
  | .sparse _ _ sh => sh

/-- Modelled from the spec: aggregation of two gradient contributions to
the same target ("the weighted sum of partial derivatives").  Absent
contributions disappear; two present contributions are added after
densification. -/
def gcomb : Option GradVal → Option GradVal → Option GradVal
  | none, g => g
  | g, none => g
  | some a, some b => some (.dense (.add (to_dense a) (to_dense b)))

/-- Modelled from the spec: the vector-Jacobian product of one output y
against one target t, given the output-gradient seed.  Returns none when y
does not depend on t; returns an indexed-slices value when the dependence
is through a gather whose input is the target itself (the case in which
"tf.IndexedSlices are generated by the first tf.gradients call"). -/
def vjp (t : Node) : Node → Node → Option GradVal
  | seed, .var i s =>
      if Node.var i s = t then some (.dense seed) else none
  | seed, .dual i s =>
      if Node.dual i s = t then some (.dense seed) else none
  | seed, .fill c s =>
      if Node.fill c s = t then some (.dense seed) else none
  | seed, .assertNode c =>
      if Node.assertNode c = t then some (.dense seed) else none
  | seed, .add a b =>
      if Node.add a b = t then some (.dense seed)
      else gcomb (vjp t seed a) (vjp t seed b)
  | seed, .mul a b =>
      if Node.mul a b = t then some (.dense seed)
      else gcomb (vjp t (.mul seed b) a) (vjp t (.mul seed a) b)
  | seed, .gather a idx =>
      if Node.gather a idx = t then some (.dense seed)
      else if a = t then some (.sparse idx seed (shape a))
      else vjp t (.scatter idx seed (shape a)) a
  | seed, .scatter idx v sh =>
      if Node.scatter idx v sh = t then some (.dense seed)
      else vjp t (.gather seed idx) v
  | seed, .gated dep x =>
      if Node.gated dep x = t then some (.dense seed)
      else vjp t seed x

/-- Combined contribution of a list of (output, seed) pairs to one target. -/
def gradOne (pairs : List (Node × Node)) (t : Node) : Option GradVal :=
  pairs.foldr (fun p acc => gcomb (vjp t p.2 p.1) acc) none

/-- Modelled from the spec: tf.gradients(ys, ts, grad_ys).  Returns one
entry per target ("matching targets in length; entries may be null when an
output does not depend on a target"); when grad_ys is absent each seed
defaults to an all-ones tensor shaped like the corresponding output. -/
def gradients (ys ts : List Node) (grad_ys : Option (List Node)) :
    List (Option GradVal) :=
  let seeds := grad_ys.getD (ys.map ones_like)
  ts.map (gradOne (ys.zip seeds))

/-- The dual placeholders: us = [zeros_like(y) + float nan for y in ys].
Each construction registers a fresh graph node; the positional tag records
that node identity. -/
def mkUs (ys : List Node) : List Node :=
  List.zipWith (fun i y => Node.dual i (shape y)) (List.range ys.length) ys

/-- Line 60-61: dydxs entries that are IndexedSlices are converted to
dense tensors; dense entries and absent (None) entries pass through. -/
def convertGrad : Option GradVal → Option Node :=
  Option.map to_dense

/-- The Assert op built under control_dependencies(dydxs): its evaluation
is ordered after every present entry of dydxs. -/
def gateAll (deps : List (Option Node)) (base : Node) : Node :=
  deps.foldr (fun d acc => match d with | some n => .gated n acc | none => acc) base

/-- Lines 63-67: when assert_unused is set, build the always-failing
Assert under a control dependency on dydxs, and route dydxs through
identity_n under a control dependency on that Assert. -/
def instrument (assert_unused : Bool) (dydxs : List (Option Node)) :
    List (Option Node) :=
  if assert_unused then
    let a := gateAll dydxs (.assertNode false)
    dydxs.map (Option.map (fun n => .gated a n))
  else dydxs

/-- Lines 69-70: a None entry (an x that influences no y) is replaced by
zeros_like(x), preserving positional alignment with xs. -/
def replaceNone (xs : List Node) (dydxs : List (Option Node)) : List Node :=
  (xs.zip dydxs).map (fun p => match p.2 with
    | none => zeros_like p.1
    | some n => n)

/-- Lines 71-72: dydx.set_shape(x.shape).  In the embedding shape
metadata is exact, so refining a node's shape metadata to an equal shape
returns the node; the accompanying lemmas show the shapes do agree. -/
def set_shape (n : Node) (_s : List Nat) : Node := n

/-- The intermediate dydxs right after conversion and instrumentation
(the value the injected assertion protects). -/
def fwd_dydxs_instr (ys xs : List Node) (assert_unused : Bool) :
    List (Option Node) :=
  instrument assert_unused ((gradients ys xs (some (mkUs ys))).map convertGrad)

/-- None replacement followed by the set_shape pass. -/
def finalDydxs (xs : List Node) (dydxs : List (Option Node)) : List Node :=
  (xs.zip (replaceNone xs dydxs)).map (fun p => set_shape p.2 (shape p.1))

/-- The fully processed intermediate dydxs, as fed to the second
reverse-mode call. -/
def fwd_dydxs (ys xs : List Node) (assert_unused : Bool) : List Node :=
  finalDydxs xs (fwd_dydxs_instr ys xs assert_unused)

/-- fwd_gradients(ys, xs, grad_xs, assert_unused), transcribed from the
source: build us, differentiate ys against xs with seeds us, convert
IndexedSlices, optionally instrument, replace None entries by zeros,
force shapes, and differentiate the result against us with seeds grad_xs.
The second call's raw result is returned unprocessed. -/
def fwd_gradients (ys xs : List Node) (grad_xs : Option (List Node))
    (assert_unused : Bool) : List (Option GradVal) :=
  gradients (fwd_dydxs ys xs assert_unused) (mkUs ys) grad_xs

/-- Scatter a list of values into an accumulator at the given positions,
adding at repeated positions; out-of-range positions are dropped. -/
def scatterData : List Nat → List Sc → List Sc → List Sc
  | [], _, acc => acc
  | _, [], acc => acc
  | i :: is, v :: vs, acc =>
      scatterData is vs (acc.set i (scAdd (acc.getD i none) v))

/-- Tensor value of a node under an environment assigning data to the
caller's input tensors.  Control dependencies and assertions do not change
values; whether evaluation succeeds at all is evalOK below. -/
def evalV (env : Nat → List Sc) : Node → List Sc
  | .var i _ => env i
  | .dual _ s => List.replicate s.prod none
  | .fill c s => List.replicate s.prod c
  | .add a b => List.zipWith scAdd (evalV env a) (evalV env b)
  | .mul a b => List.zipWith scMul (evalV env a) (evalV env b)
  | .gather a idx => idx.map (fun i => (evalV env a).getD i none)
  | .scatter idx v s =>
      scatterData idx (evalV env v) (List.replicate s.prod (some 0))
  | .assertNode _ => []
  | .gated _ x => evalV env x

/-- Whether forcing the node's evaluation succeeds: an assertion with a
false condition fails, a control dependency forces its dependency first,
and failures propagate through every operand. -/
def evalOK (env : Nat → List Sc) : Node → Bool
  | .var _ _ => true
  | .dual _ _ => true
  | .fill _ _ => true
  | .add a b => evalOK env a && evalOK env b
  | .mul a b => evalOK env a && evalOK env b
  | .gather a _ => evalOK env a
  | .scatter _ v _ => evalOK env v
  | .assertNode c => c
  | .gated dep x => evalOK env dep && evalOK env x

/-- Value of a returned gradient entry: None stays None, an
indexed-slices entry denotes its densified tensor. -/
def evalG (env : Nat → List Sc) : Option GradVal → Option (List Sc) :=
  Option.map (fun g => evalV env (to_dense g))

/-- Static well-formedness of a graph (the shape consistency the
framework enforces at graph-construction time): elementwise operands
share a shape, gather reads a 1-D tensor within bounds, scatter writes a
matching number of values within bounds. -/
def wf : Node → Bool
  | .var _ _ => true
  | .dual _ _ => true
  | .fill _ _ => true
  | .add a b => wf a && wf b && decide (shape a = shape b)
  | .mul a b => wf a && wf b && decide (shape a = shape b)
  | .gather a idx =>
      wf a && (match shape a with
        | [n] => idx.all (fun i => i < n)
        | _ => false)
  | .scatter idx v sh =>
      wf v && decide (shape v = [idx.length]) &&
        (match sh with
          | [n] => idx.all (fun i => i < n)
          | _ => false)
  | .assertNode _ => true
  | .gated dep x => wf dep && wf x

/-- All listed nodes are well formed. -/
def allWF (l : List Node) : Bool := l.all wf

/-- The validity the spec requires of a supplied grad_xs: matching length
and, position by position, a well-formed seed of the shape of the
corresponding x. -/
def seedOK (grad_xs : Option (List Node)) (xs : List Node) : Bool :=
  match grad_xs with
  | none => true
  | some l =>
      decide (l.length = xs.length) &&
        (l.zip xs).all (fun p => wf p.1 && decide (shape p.1 = shape p.2))

/-- Elementwise scaling of a seed by the scalar c (a c-filled tensor of
the seed's shape times the seed). -/
def scaleN (c : ℤ) (g : Node) : Node := .mul (.fill (some c) (shape g)) g

/-! ### Unfolding equations for the vector-Jacobian product -/

theorem vjp_self (t seed : Node) : vjp t seed t = some (.dense seed) := by
  cases t <;> simp [vjp]

theorem vjp_add (t seed a b : Node) (h : Node.add a b ≠ t) :
    vjp t seed (.add a b) = gcomb (vjp t seed a) (vjp t seed b) := by
  simp [vjp, h]

theorem vjp_mul (t seed a b : Node) (h : Node.mul a b ≠ t) :
    vjp t seed (.mul a b) =
      gcomb (vjp t (.mul seed b) a) (vjp t (.mul seed a) b) := by
  simp [vjp, h]

theorem vjp_gather_hit (t seed a : Node) (idx : List Nat)
    (h : Node.gather a idx ≠ t) (ha : a = t) :
    vjp t seed (.gather a idx) = some (.sparse idx seed (shape a)) := by
  subst ha; simp [vjp, h]

theorem vjp_gather_miss (t seed a : Node) (idx : List Nat)
    (h : Node.gather a idx ≠ t) (ha : a ≠ t) :
    vjp t seed (.gather a idx) = vjp t (.scatter idx seed (shape a)) a := by
  simp [vjp, h, ha]

theorem vjp_scatter (t seed v : Node) (idx : List Nat) (sh : List Nat)
    (h : Node.scatter idx v sh ≠ t) :
    vjp t seed (.scatter idx v sh) = vjp t (.gather seed idx) v := by
  simp [vjp, h]

theorem vjp_gated (t seed dep x : Node) (h : Node.gated dep x ≠ t) :
    vjp t seed (.gated dep x) = vjp t seed x := by
  simp [vjp, h]

theorem vjp_var (t seed : Node) (i : Nat) (s : List Nat)
    (h : Node.var i s ≠ t) : vjp t seed (.var i s) = none := by
  simp [vjp, h]

theorem vjp_dual (t seed : Node) (i : Nat) (s : List Nat)
    (h : Node.dual i s ≠ t) : vjp t seed (.dual i s) = none := by
  simp [vjp, h]

theorem vjp_fill (t seed : Node) (c : Sc) (s : List Nat)
    (h : Node.fill c s ≠ t) : vjp t seed (.fill c s) = none := by
  simp [vjp, h]

theorem vjp_assert (t seed : Node) (c : Bool)
    (h : Node.assertNode c ≠ t) : vjp t seed (.assertNode c) = none := by
  simp [vjp, h]

/-! ### Shape and well-formedness soundness of the reverse-mode primitive -/

theorem shape_to_dense (g : GradVal) : shape (to_dense g) = gshape g := by
  cases g <;> simp [to_dense, gshape, shape]

/-- A gradient entry is sound for target shape S: if present, its dense
shape is S and its densification is well formed. -/
def GOK (S : List Nat) (o : Option GradVal) : Prop :=
  ∀ g, o = some g → gshape g = S ∧ wf (to_dense g) = true

theorem GOK_none (S : List Nat) : GOK S none := by
  intro g h; cases h

theorem gcomb_GOK {S : List Nat} {o₁ o₂ : Option GradVal}
    (h₁ : GOK S o₁) (h₂ : GOK S o₂) : GOK S (gcomb o₁ o₂) := by
  cases o₁ with
  | none => simpa [gcomb] using h₂
  | some a =>
    cases o₂ with
    | none => simpa [gcomb] using h₁
    | some b =>
      obtain ⟨ha1, ha2⟩ := h₁ a rfl
      obtain ⟨hb1, hb2⟩ := h₂ b rfl
      intro g hg
      simp only [gcomb] at hg
      cases hg
      constructor
      · show shape (.add (to_dense a) (to_dense b)) = S
        simp only [shape, shape_to_dense, ha1]
      · show wf (.add (to_dense a) (to_dense b)) = true
        simp only [wf, Bool.and_eq_true, decide_eq_true_eq, shape_to_dense,
          ha1, hb1, ha2, hb2, and_self]

theorem vjp_sound (y : Node) : ∀ (t seed : Node), wf y = true →
    wf seed = true → shape seed = shape y → GOK (shape t) (vjp t seed y) := by
  induction y with
  | var i s =>
    intro t seed hy hs hsh
    by_cases h : Node.var i s = t
    · subst h; rw [vjp_self]; intro g hg; cases hg
      exact ⟨by simpa [gshape] using hsh, hs⟩
    · rw [vjp_var _ _ _ _ h]; exact GOK_none _
  | dual i s =>
    intro t seed hy hs hsh
    by_cases h : Node.dual i s = t
    · subst h; rw [vjp_self]; intro g hg; cases hg
      exact ⟨by simpa [gshape] using hsh, hs⟩
    · rw [vjp_dual _ _ _ _ h]; exact GOK_none _
  | fill c s =>
    intro t seed hy hs hsh
    by_cases h : Node.fill c s = t
    · subst h; rw [vjp_self]; intro g hg; cases hg
      exact ⟨by simpa [gshape] using hsh, hs⟩
    · rw [vjp_fill _ _ _ _ h]; exact GOK_none _
  | assertNode c =>
    intro t seed hy hs hsh
    by_cases h : Node.assertNode c = t
    · subst h; rw [vjp_self]; intro g hg; cases hg
      exact ⟨by simpa [gshape] using hsh, hs⟩
    · rw [vjp_assert _ _ _ h]; exact GOK_none _
  | add a b iha ihb =>
    intro t seed hy hs hsh
    by_cases h : Node.add a b = t
    · subst h; rw [vjp_self]; intro g hg; cases hg
      exact ⟨by simpa [gshape] using hsh, hs⟩
    · rw [vjp_add _ _ _ _ h]
      simp only [wf, Bool.and_eq_true, decide_eq_true_eq] at hy
      obtain ⟨⟨hwa, hwb⟩, hab⟩ := hy
      simp only [shape] at hsh
      exact gcomb_GOK (iha t seed hwa hs hsh)
        (ihb t seed hwb hs (by rw [hsh, hab]))
  | mul a b iha ihb =>
    intro t seed hy hs hsh
    by_cases h : Node.mul a b = t
    · subst h; rw [vjp_self]; intro g hg; cases hg
      exact ⟨by simpa [gshape] using hsh, hs⟩
    · rw [vjp_mul _ _ _ _ h]
      simp only [wf, Bool.and_eq_true, decide_eq_true_eq] at hy
      obtain ⟨⟨hwa, hwb⟩, hab⟩ := hy
      simp only [shape] at hsh
      have h1 : wf (Node.mul seed b) = true := by
        simp [wf, hs, hwb, hsh, hab]
      have h2 : wf (Node.mul seed a) = true := by
        simp [wf, hs, hwa, hsh]
      exact gcomb_GOK (iha t (.mul seed b) hwa h1 (by simp [shape, hsh]))
        (ihb t (.mul seed a) hwb h2 (by simp [shape, hsh, hab]))
  | gather a idx iha =>
    intro t seed hy hs hsh
    by_cases h : Node.gather a idx = t
    · subst h; rw [vjp_self]; intro g hg; cases hg
      exact ⟨by simpa [gshape] using hsh, hs⟩
    · simp only [wf, Bool.and_eq_true] at hy
      obtain ⟨hwa, hbound⟩ := hy
      cases hsa : shape a with
      | nil => rw [hsa] at hbound; simp at hbound
      | cons n tail =>
        cases tail with
        | cons m tail2 => rw [hsa] at hbound; simp at hbound
        | nil =>
          rw [hsa] at hbound
          have hball : ∀ i ∈ idx, i < n := by
            have hb : idx.all (fun i => decide (i < n)) = true := hbound
            simpa using hb
          simp only [shape] at hsh
          by_cases ha : a = t
          · rw [vjp_gather_hit _ _ _ _ h ha]
            intro g hg; cases hg
            constructor
            · simp [gshape, ha]
            · show wf (.scatter idx seed (shape a)) = true
              simpa [wf, hs, hsh, hsa] using hball
          · rw [vjp_gather_miss _ _ _ _ h ha]
            have hws : wf (Node.scatter idx seed (shape a)) = true := by
              simpa [wf, hs, hsh, hsa] using hball
            exact iha t _ hwa hws (by simp [shape])
  | scatter idx v sh ihv =>
    intro t seed hy hs hsh
    by_cases h : Node.scatter idx v sh = t
    · subst h; rw [vjp_self]; intro g hg; cases hg
      exact ⟨by simpa [gshape] using hsh, hs⟩
    · rw [vjp_scatter _ _ _ _ _ h]
      simp only [wf, Bool.and_eq_true, decide_eq_true_eq] at hy
      obtain ⟨⟨hwv, hvs⟩, hbound⟩ := hy
      cases hss : sh with
      | nil => rw [hss] at hbound; simp at hbound
      | cons n tail =>
        cases tail with
        | cons m tail2 => rw [hss] at hbound; simp at hbound
        | nil =>
          rw [hss] at hbound
          have hball : ∀ i ∈ idx, i < n := by
            have hb : idx.all (fun i => decide (i < n)) = true := hbound
            simpa using hb
          simp only [shape] at hsh
          have hwg : wf (Node.gather seed idx) = true := by
            simpa [wf, hs, hsh, hss] using hball
          exact ihv t _ hwv hwg (by simp [shape, hvs])
  | gated dep x ihd ihx =>
    intro t seed hy hs hsh
    by_cases h : Node.gated dep x = t
    · subst h; rw [vjp_self]; intro g hg; cases hg
      exact ⟨by simpa [gshape] using hsh, hs⟩
    · rw [vjp_gated _ _ _ _ h]
      simp only [wf, Bool.and_eq_true] at hy
      simp only [shape] at hsh
      exact ihx t seed hy.2 hs hsh

/-! ### Soundness of an aggregated contribution and of the first pass -/

theorem gradOne_cons (p : Node × Node) (ps : List (Node × Node)) (t : Node) :
    gradOne (p :: ps) t = gcomb (vjp t p.2 p.1) (gradOne ps t) := rfl

theorem gradOne_sound (pairs : List (Node × Node)) (t : Node)
    (h : ∀ p ∈ pairs, wf p.1 = true ∧ wf p.2 = true ∧ shape p.2 = shape p.1) :
    GOK (shape t) (gradOne pairs t) := by
  induction pairs with
  | nil => exact GOK_none _
  | cons p ps ih =>
    have hp := h p (List.mem_cons_self _ _)
    have hps := fun q hq => h q (List.mem_cons_of_mem _ hq)
    rw [gradOne_cons]
    exact gcomb_GOK (vjp_sound p.1 t p.2 hp.1 hp.2.1 hp.2.2) (ih hps)

/-- A member of a zip is an aligned pair of members. -/
theorem mem_zip_idx {α β : Type} {l₁ : List α} {l₂ : List β} {p : α × β}
    (h : p ∈ l₁.zip l₂) :
    ∃ i : Nat, l₁[i]? = some p.1 ∧ l₂[i]? = some p.2 := by
  induction l₁ generalizing l₂ with
  | nil => rw [List.zip_nil_left] at h; cases h
  | cons a as ih =>
    cases l₂ with
    | nil => rw [List.zip_nil_right] at h; cases h
    | cons b bs =>
      rcases List.mem_cons.mp h with heq | hmem
      · exact ⟨0, by simp [heq]⟩
      · obtain ⟨i, h1, h2⟩ := ih hmem
        exact ⟨i + 1, by simpa using h1, by simpa using h2⟩

theorem mkUs_length (ys : List Node) : (mkUs ys).length = ys.length := by
  simp [mkUs]

theorem mkUs_getElem? (ys : List Node) (i : Nat) :
    (mkUs ys)[i]? = (ys[i]?).map (fun y => Node.dual i (shape y)) := by
  by_cases h : i < ys.length
  · rw [List.getElem?_eq_getElem (by simpa [mkUs_length] using h),
      List.getElem?_eq_getElem h]
    simp [mkUs]
  · rw [List.getElem?_eq_none (by simpa [mkUs_length] using Nat.le_of_not_lt h),
      List.getElem?_eq_none (Nat.le_of_not_lt h)]
    rfl

theorem allWF_mem {l : List Node} (h : allWF l = true) :
    ∀ n ∈ l, wf n = true := by
  simpa [allWF, List.all_eq_true] using h

/-- Pairing of ys with its dual placeholders is pointwise sound. -/
theorem zip_mkUs_sound (ys : List Node) (hys : allWF ys = true) :
    ∀ p ∈ ys.zip (mkUs ys),
      wf p.1 = true ∧ wf p.2 = true ∧ shape p.2 = shape p.1 := by
  intro p hp
  obtain ⟨i, h1, h2⟩ := mem_zip_idx hp
  rw [mkUs_getElem?, h1] at h2
  have h2' : Node.dual i (shape p.1) = p.2 := by simpa using h2
  have hmem : p.1 ∈ ys := List.getElem?_mem h1
  refine ⟨allWF_mem hys _ hmem, ?_, ?_⟩
  · rw [← h2']; rfl
  · rw [← h2']; rfl

theorem convertGrad_sound {S : List Nat} {o : Option GradVal}
    (h : GOK S o) :
    ∀ n, convertGrad o = some n → shape n = S ∧ wf n = true := by
  intro n hn
  cases o with
  | none => simp [convertGrad] at hn
  | some g =>
    have hn' : some (to_dense g) = some n := hn
    cases hn'
    obtain ⟨h1, h2⟩ := h g rfl
    exact ⟨by rw [shape_to_dense, h1], h2⟩

/-! ### Structure of the dydxs pipeline -/

theorem replaceNone_cons (x : Node) (xs : List Node) (o : Option Node)
    (d : List (Option Node)) :
    replaceNone (x :: xs) (o :: d) =
      (match o with | none => zeros_like x | some n => n) :: replaceNone xs d := by
  simp [replaceNone]

theorem finalDydxs_nil_left (d : List (Option Node)) :
    finalDydxs [] d = [] := rfl

theorem finalDydxs_nil_right (xs : List Node) : finalDydxs xs [] = [] := by
  simp [finalDydxs, replaceNone]

theorem finalDydxs_cons (x : Node) (xs : List Node) (o : Option Node)
    (d : List (Option Node)) :
    finalDydxs (x :: xs) (o :: d) =
      (match o with | none => zeros_like x | some n => n) :: finalDydxs xs d := by
  simp only [finalDydxs, replaceNone_cons, List.zip_cons_cons, List.map_cons]
  rfl

/-- The pointwise property a (possibly absent) intermediate entry must
satisfy against its x. -/
def EntryOK (x : Node) (o : Option Node) : Prop :=
  ∀ n, o = some n → shape n = shape x ∧ wf n = true

theorem forall₂_mem_right {α β : Type} {R : α → β → Prop} {l₁ : List α}
    {l₂ : List β} (h : List.Forall₂ R l₁ l₂) {b : β} (hb : b ∈ l₂) :
    ∃ a ∈ l₁, R a b := by
  induction h with
  | nil => cases hb
  | cons hr _ ih =>
    rcases List.mem_cons.mp hb with heq | hmem
    · subst heq; exact ⟨_, List.mem_cons_self _ _, hr⟩
    · obtain ⟨a, ha, har⟩ := ih hmem
      exact ⟨a, List.mem_cons_of_mem _ ha, har⟩

theorem gateAll_cons (o : Option Node) (os : List (Option Node)) (base : Node) :
    gateAll (o :: os) base =
      (match o with
        | some n => Node.gated n (gateAll os base)
        | none => gateAll os base) := rfl

theorem wf_gateAll (deps : List (Option Node)) (base : Node)
    (h : ∀ n : Node, some n ∈ deps → wf n = true) (hb : wf base = true) :
    wf (gateAll deps base) = true := by
  induction deps with
  | nil => exact hb
  | cons o os ih =>
    rw [gateAll_cons]
    cases o with
    | none => exact ih (fun n hn => h n (List.mem_cons_of_mem _ hn))
    | some n =>
      have h1 : wf n = true := h n (List.mem_cons_self _ _)
      have h2 : wf (gateAll os base) = true :=
        ih (fun m hm => h m (List.mem_cons_of_mem _ hm))
      simp [wf, h1, h2]

/-- Instrumentation preserves the pointwise soundness of intermediate
entries: absent entries stay absent, and gating an entry on the Assert
changes neither its shape nor its well-formedness. -/
theorem instrument_sound {xs : List Node} {C : List (Option Node)} (au : Bool)
    (h : List.Forall₂ EntryOK xs C) :
    List.Forall₂ EntryOK xs (instrument au C) := by
  cases au with
  | false => exact h
  | true =>
    have hwa : wf (gateAll C (.assertNode false)) = true := by
      refine wf_gateAll _ _ (fun n hn => ?_) rfl
      obtain ⟨x, _, hR⟩ := forall₂_mem_right h hn
      exact (hR n rfl).2
    show List.Forall₂ EntryOK xs
      (C.map (Option.map (fun n => .gated (gateAll C (.assertNode false)) n)))
    rw [List.forall₂_map_right_iff]
    refine List.Forall₂.imp ?_ h
    intro x o hR n hn
    cases o with
    | none => simp at hn
    | some m =>
      have hn' : some (Node.gated (gateAll C (.assertNode false)) m) = some n := hn
      cases hn'
      obtain ⟨hs, hw⟩ := hR m rfl
      exact ⟨hs, by simp [wf, hwa, hw]⟩

/-- None replacement and shape forcing produce a list of well-formed
dense nodes, each of its x's shape. -/
theorem finalDydxs_sound {xs : List Node} {I : List (Option Node)}
    (h : List.Forall₂ EntryOK xs I) :
    List.Forall₂ (fun x d => shape d = shape x ∧ wf d = true) xs
      (finalDydxs xs I) := by
  induction h with
  | nil => exact List.Forall₂.nil
  | @cons x o xs' I' hR hrest ih =>
    rw [finalDydxs_cons]
    refine List.Forall₂.cons ?_ ih
    cases o with
    | none => exact ⟨rfl, rfl⟩
    | some n => exact hR n rfl

/-- Soundness of the converted first differentiation pass: position by
position, a present entry of dydxs (after IndexedSlices conversion) is a
well-formed node of the corresponding x's shape. -/
theorem firstPass_sound (ys xs : List Node) (hys : allWF ys = true) :
    List.Forall₂ EntryOK xs
      ((gradients ys xs (some (mkUs ys))).map convertGrad) := by
  have hz := zip_mkUs_sound ys hys
  show List.Forall₂ EntryOK xs
    ((xs.map (gradOne (ys.zip (mkUs ys)))).map convertGrad)
  rw [List.map_map, List.forall₂_map_right_iff]
  rw [List.forall₂_same]
  intro x _
  intro n hn
  have hg : GOK (shape x) (gradOne (ys.zip (mkUs ys)) x) :=
    gradOne_sound _ _ hz
  exact convertGrad_sound hg n hn

/-- Combined soundness of the whole intermediate pipeline. -/
theorem fwd_dydxs_sound (ys xs : List Node) (au : Bool)
    (hys : allWF ys = true) :
    List.Forall₂ (fun x d => shape d = shape x ∧ wf d = true) xs
      (fwd_dydxs ys xs au) :=
  finalDydxs_sound (instrument_sound au (firstPass_sound ys xs hys))

theorem fwd_dydxs_length (ys xs : List Node) (au : Bool)
    (hys : allWF ys = true) :
    (fwd_dydxs ys xs au).length = xs.length :=
  (List.Forall₂.length_eq (fwd_dydxs_sound ys xs au hys)).symm

/-- If every position of D carries the shape of the matching position of
xs, the default all-ones seeds for D coincide with all-ones tensors
shaped like the xs. -/
theorem map_ones_like_eq {xs D : List Node}
    (h : List.Forall₂ (fun x d => shape d = shape x ∧ wf d = true) xs D) :
    D.map ones_like = xs.map ones_like := by
  induction h with
  | nil => rfl
  | cons hR _ ih => simp [ones_like, hR.1, ih]

theorem forall₂_getElem?_right {α β : Type} {R : α → β → Prop}
    {l₁ : List α} {l₂ : List β} (h : List.Forall₂ R l₁ l₂) {i : Nat} {b : β}
    (hb : l₂[i]? = some b) : ∃ a, l₁[i]? = some a ∧ R a b := by
  induction h generalizing i with
  | nil => simp at hb
  | @cons a b' l₁' l₂' hr hrest ih =>
    cases i with
    | zero =>
      have hb' : b' = b := by simpa using hb
      exact ⟨a, by simp, hb' ▸ hr⟩
    | succ j =>
      obtain ⟨a', ha', hr'⟩ := ih (by simpa using hb)
      exact ⟨a', by simpa using ha', hr'⟩

theorem getElem?_zip_mem {α β : Type} {l₁ : List α} {l₂ : List β} {i : Nat}
    {a : α} {b : β} (h₁ : l₁[i]? = some a) (h₂ : l₂[i]? = some b) :
    (a, b) ∈ l₁.zip l₂ := by
  induction l₁ generalizing l₂ i with
  | nil => simp at h₁
  | cons x xs ih =>
    cases l₂ with
    | nil => simp at h₂
    | cons y ys =>
      cases i with
      | zero =>
        have ha : x = a := by simpa using h₁
        have hb : y = b := by simpa using h₂
        subst ha; subst hb
        exact List.mem_cons_self _ _
      | succ j =>
        exact List.mem_cons_of_mem _ (ih (by simpa using h₁) (by simpa using h₂))

/-- The pairs fed to the second reverse-mode call are sound: each present
position pairs a well-formed output with a well-formed seed of the
output's shape. -/
theorem secondPass_pairs_sound (ys xs : List Node)
    (grad_xs : Option (List Node)) (au : Bool) (hys : allWF ys = true)
    (hseed : seedOK grad_xs xs = true) :
    ∀ p ∈ (fwd_dydxs ys xs au).zip
        (grad_xs.getD ((fwd_dydxs ys xs au).map ones_like)),
      wf p.1 = true ∧ wf p.2 = true ∧ shape p.2 = shape p.1 := by
  have hD := fwd_dydxs_sound ys xs au hys
  intro p hp
  obtain ⟨j, h1, h2⟩ := mem_zip_idx hp
  obtain ⟨x, hx, hshape, hwf⟩ := forall₂_getElem?_right hD h1
  cases grad_xs with
  | none =>
    rw [Option.getD_none, List.getElem?_map, h1] at h2
    have h2' : ones_like p.1 = p.2 := by simpa using h2
    exact ⟨hwf, by rw [← h2']; rfl, by rw [← h2']; rfl⟩
  | some l =>
    rw [Option.getD_some] at h2
    simp only [seedOK, Bool.and_eq_true, decide_eq_true_eq,
      List.all_eq_true] at hseed
    obtain ⟨hlen, hall⟩ := hseed
    have hmem : (p.2, x) ∈ l.zip xs := getElem?_zip_mem h2 hx
    obtain ⟨hw2, hs2⟩ := by simpa using hall _ hmem
    exact ⟨hwf, hw2, by rw [hs2, ← hshape]⟩

/-- C3.  Calling without grad_xs produces the same result as calling with
grad_xs set to all-ones tensors shaped like each x: the default seeds of
the second reverse-mode call are ones shaped like each dydx, and every
dydx has the shape of its x. -/
theorem c3_default_seed (ys xs : List Node) (au : Bool)
    (hys : allWF ys = true) :
    fwd_gradients ys xs none au =
      fwd_gradients ys xs (some (xs.map ones_like)) au := by
  show gradients (fwd_dydxs ys xs au) (mkUs ys) none =
    gradients (fwd_dydxs ys xs au) (mkUs ys) (some (xs.map ones_like))
  unfold gradients
  rw [Option.getD_none, Option.getD_some,
    map_ones_like_eq (fwd_dydxs_sound ys xs au hys)]

/-- Witness for C3 at the two-input product graph. -/
theorem c3_default_seed_witness :
    allWF [Node.mul (.var 0 []) (.var 1 [])] = true ∧
      fwd_gradients [Node.mul (.var 0 []) (.var 1 [])]
          [Node.var 0 [], Node.var 1 []] none false =
        fwd_gradients [Node.mul (.var 0 []) (.var 1 [])]
          [Node.var 0 [], Node.var 1 []]
          (some ([Node.var 0 [], Node.var 1 []].map ones_like)) false :=
  ⟨by decide, c3_default_seed _ _ false (by decide)⟩

/-- C1 (counterexample to the claim as stated).  At the valid call
ys = [var 0, var 1], xs = [var 0], the second output is influenced by no
x, and the returned sequence is [some 1-fill, None]: its second element
is not a tensor of the second y's shape (it is None), so it is not the
case that every returned element has the shape of its y. -/
theorem c1_shape_counterexample :
    ¬ List.Forall₂ (fun o y => ∃ g, o = some g ∧ gshape g = shape y)
      (fwd_gradients [Node.var 0 [], Node.var 1 []] [Node.var 0 []] none false)
      [Node.var 0 [], Node.var 1 []] := by
  have hres : fwd_gradients [Node.var 0 [], Node.var 1 []] [Node.var 0 []]
      none false = [some (.dense (.fill (some 1) [])), none] := by decide
  rw [hres]
  intro h
  rcases h with _ | ⟨_, h2⟩
  rcases h2 with _ | ⟨hpair, _⟩
  obtain ⟨g, hg, _⟩ := hpair
  cases hg

/-- C1 (amended).  For every valid call (well-formed ys, grad_xs of
matching length and shapes when supplied), the returned sequence has
length len(ys), and every returned element is either None (possible when
its y is influenced by no x) or a gradient of the same shape as the
corresponding element of ys. -/
theorem c1_shape_amended (ys xs : List Node) (grad_xs : Option (List Node))
    (au : Bool) (hys : allWF ys = true) (hseed : seedOK grad_xs xs = true) :
    (fwd_gradients ys xs grad_xs au).length = ys.length ∧
    ∀ (i : Nat) (o : Option GradVal) (y : Node),
      (fwd_gradients ys xs grad_xs au)[i]? = some o → ys[i]? = some y →
      o = none ∨ ∃ g, o = some g ∧ gshape g = shape y := by
  constructor
  · show ((mkUs ys).map _).length = ys.length
    rw [List.length_map, mkUs_length]
  · intro i o y ho hy
    have ho' : (((mkUs ys).map (gradOne ((fwd_dydxs ys xs au).zip
        (grad_xs.getD ((fwd_dydxs ys xs au).map ones_like)))))[i]?) = some o := ho
    rw [List.getElem?_map, mkUs_getElem?, hy] at ho'
    have ho'' : gradOne ((fwd_dydxs ys xs au).zip
        (grad_xs.getD ((fwd_dydxs ys xs au).map ones_like)))
        (Node.dual i (shape y)) = o := by simpa using ho'
    have hGOK : GOK (shape (Node.dual i (shape y)))
        (gradOne ((fwd_dydxs ys xs au).zip
          (grad_xs.getD ((fwd_dydxs ys xs au).map ones_like)))
          (Node.dual i (shape y))) :=
      gradOne_sound _ _ (secondPass_pairs_sound ys xs grad_xs au hys hseed)
    cases o with
    | none => exact Or.inl rfl
    | some g =>
      refine Or.inr ⟨g, rfl, ?_⟩
      have := (hGOK g ho'').1
      simpa [shape] using this

/-- Witness for C1 (amended) at the product graph with explicit seeds. -/
theorem c1_shape_witness :
    (allWF [Node.mul (.var 0 []) (.var 1 [])] = true ∧
      seedOK (some [Node.fill (some 1) [], Node.fill (some 0) []])
        [Node.var 0 [], Node.var 1 []] = true) ∧
    ((fwd_gradients [Node.mul (.var 0 []) (.var 1 [])]
        [Node.var 0 [], Node.var 1 []]
        (some [Node.fill (some 1) [], Node.fill (some 0) []]) false).length =
      [Node.mul (.var 0 []) (.var 1 [])].length ∧
    ∀ (i : Nat) (o : Option GradVal) (y : Node),
      (fwd_gradients [Node.mul (.var 0 []) (.var 1 [])]
        [Node.var 0 [], Node.var 1 []]
        (some [Node.fill (some 1) [], Node.fill (some 0) []]) false)[i]? =
          some o →
      [Node.mul (.var 0 []) (.var 1 [])][i]? = some y →
      o = none ∨ ∃ g, o = some g ∧ gshape g = shape y) :=
  ⟨⟨by decide, by decide⟩,
    c1_shape_amended _ _ _ false (by decide) (by decide)⟩

/-! ### Assertion instrumentation (assert_unused) -/

theorem evalOK_gateAll_false (env : Nat → List Sc)
    (deps : List (Option Node)) :
    evalOK env (gateAll deps (.assertNode false)) = false := by
  induction deps with
  | nil => rfl
  | cons o os ih =>
    rw [gateAll_cons]
    cases o with
    | none => exact ih
    | some n => simp [evalOK, ih]

/-- Gating outputs on a control dependency is invisible to the
vector-Jacobian product against a dual target. -/
theorem vjp_dual_gated (i : Nat) (s : List Nat) (seed dep x : Node) :
    vjp (.dual i s) seed (.gated dep x) = vjp (.dual i s) seed x :=
  vjp_gated _ _ _ _ (by simp)

theorem forall₂_zip_right {α β : Type} {R : α → α → Prop} {l₁ l₂ : List α}
    (h : List.Forall₂ R l₁ l₂) (m : List β) :
    List.Forall₂ (fun p q => R p.1 q.1 ∧ p.2 = q.2) (l₁.zip m) (l₂.zip m) := by
  induction h generalizing m with
  | nil => exact List.Forall₂.nil
  | @cons a b l₁' l₂' hr hrest ih =>
    cases m with
    | nil => rw [List.zip_nil_right, List.zip_nil_right]; exact List.Forall₂.nil
    | cons c cs => exact List.Forall₂.cons ⟨hr, rfl⟩ (ih cs)

/-- Combined contributions against a dual target agree when, position by
position, the outputs differ only by an identity gate and the seeds
coincide. -/
theorem gradOne_gate_invariant (a : Node) (i : Nat) (s : List Nat) :
    ∀ (p₁ p₂ : List (Node × Node)),
    List.Forall₂
      (fun p q => (q.1 = p.1 ∨ q.1 = Node.gated a p.1) ∧ p.2 = q.2) p₁ p₂ →
    gradOne p₂ (.dual i s) = gradOne p₁ (.dual i s) := by
  intro p₁ p₂ h
  induction h with
  | nil => rfl
  | @cons p q p₁' p₂' hr hrest ih =>
    rw [gradOne_cons, gradOne_cons, ih, ← hr.2]
    rcases hr.1 with he | he
    · rw [he]
    · rw [he, vjp_dual_gated]

/-- Position by position, the None-replaced instrumented dydxs differ
from the uninstrumented dydxs only by an identity gate (replaced zeros
are not gated), and shapes agree. -/
theorem finalDydxs_gate (xs : List Node) (C : List (Option Node)) (a : Node) :
    List.Forall₂
      (fun d e => (e = d ∨ e = Node.gated a d) ∧ shape e = shape d)
      (finalDydxs xs C)
      (finalDydxs xs (C.map (Option.map (fun n => .gated a n)))) := by
  induction xs generalizing C with
  | nil => exact List.Forall₂.nil
  | cons x xs' ih =>
    cases C with
    | nil =>
      rw [List.map_nil, finalDydxs_nil_right]
      exact List.Forall₂.nil
    | cons o os =>
      rw [List.map_cons, finalDydxs_cons, finalDydxs_cons]
      refine List.Forall₂.cons ?_ (ih os)
      cases o with
      | none => exact ⟨Or.inl rfl, rfl⟩
      | some n => exact ⟨Or.inr rfl, rfl⟩

theorem map_ones_like_of_shapes {D E : List Node}
    (h : List.Forall₂ (fun d e => shape e = shape d) D E) :
    E.map ones_like = D.map ones_like := by
  induction h with
  | nil => rfl
  | cons hr _ ih => simp [ones_like, hr, ih]

theorem mem_mkUs_dual {ys : List Node} {u : Node} (h : u ∈ mkUs ys) :
    ∃ (i : Nat) (s : List Nat), u = Node.dual i s := by
  simp only [mkUs, List.mem_iff_getElem?] at h
  obtain ⟨i, hi⟩ := h
  rw [List.getElem?_zipWith] at hi
  cases hr : (List.range ys.length)[i]? with
  | none => rw [hr] at hi; simp at hi
  | some j =>
    cases hy : ys[i]? with
    | none => rw [hr, hy] at hi; simp at hi
    | some y =>
      rw [hr, hy] at hi
      have : Node.dual j (shape y) = u := by simpa using hi
      exact ⟨j, shape y, this.symm⟩

/-- C6.  With assert_unused set, the returned dysdx is the same node
sequence as with assert_unused unset (so evaluating only the final result
succeeds exactly when it does in the unasserted case, with identical
values), while forcing the evaluation of any present entry of the
instrumented intermediate dydxs fails: it is gated on the injected
always-failing assertion. -/
theorem c6_assert_mode (ys xs : List Node) (grad_xs : Option (List Node)) :
    fwd_gradients ys xs grad_xs true = fwd_gradients ys xs grad_xs false ∧
    ∀ (env : Nat → List Sc) (i : Nat) (n : Node),
      (fwd_dydxs_instr ys xs true)[i]? = some (some n) →
      evalOK env n = false := by
  constructor
  · show gradients (fwd_dydxs ys xs true) (mkUs ys) grad_xs =
      gradients (fwd_dydxs ys xs false) (mkUs ys) grad_xs
    set C := (gradients ys xs (some (mkUs ys))).map convertGrad with hC
    set a := gateAll C (.assertNode false) with ha
    have hFD := finalDydxs_gate xs C a
    have hDt : fwd_dydxs ys xs true =
        finalDydxs xs (C.map (Option.map (fun n => .gated a n))) := rfl
    have hDf : fwd_dydxs ys xs false = finalDydxs xs C := rfl
    have hgr : ∀ (D : List Node),
        gradients D (mkUs ys) grad_xs =
          (mkUs ys).map (gradOne (D.zip (grad_xs.getD (D.map ones_like)))) :=
      fun D => rfl
    rw [hDt, hDf, hgr, hgr]
    have hseeds :
        (finalDydxs xs (C.map (Option.map (fun n => .gated a n)))).map
            ones_like =
          (finalDydxs xs C).map ones_like :=
      map_ones_like_of_shapes (List.Forall₂.imp (fun d e hr => hr.2) hFD)
    have hrel := List.Forall₂.imp
      (fun d e (hr : (e = d ∨ e = Node.gated a d) ∧ shape e = shape d) =>
        hr.1) hFD
    cases grad_xs with
    | none =>
      rw [Option.getD_none, Option.getD_none, hseeds]
      refine List.map_congr_left ?_
      intro u hu
      obtain ⟨i, s, rfl⟩ := mem_mkUs_dual hu
      exact gradOne_gate_invariant _ i s _ _
        (forall₂_zip_right hrel _)
    | some l =>
      rw [Option.getD_some, Option.getD_some]
      refine List.map_congr_left ?_
      intro u hu
      obtain ⟨i, s, rfl⟩ := mem_mkUs_dual hu
      exact gradOne_gate_invariant _ i s _ _
        (forall₂_zip_right hrel _)
  · intro env i n hn
    have hn' : ((((gradients ys xs (some (mkUs ys))).map convertGrad).map
        (Option.map (fun m => Node.gated
          (gateAll ((gradients ys xs (some (mkUs ys))).map convertGrad)
            (.assertNode false)) m)))[i]?) = some (some n) := hn
    rw [List.getElem?_map] at hn'
    cases hc : ((gradients ys xs (some (mkUs ys))).map convertGrad)[i]? with
    | none => rw [hc] at hn'; simp at hn'
    | some o =>
      rw [hc] at hn'
      cases o with
      | none => simp at hn'
      | some m =>
        have : Node.gated (gateAll
            ((gradients ys xs (some (mkUs ys))).map convertGrad)
            (.assertNode false)) m = n := by simpa using hn'
        rw [← this]
        simp [evalOK, evalOK_gateAll_false]

/-- C2.  For the single output y = x1 * x2 with scalar inputs (x1 holding
value a and x2 holding value b), fwd_gradients([y], [x1, x2]) with seed
[1, 0] returns a one-element sequence evaluating to x2's current value,
and with seed [0, 1] a one-element sequence evaluating to x1's current
value. -/
theorem c2_product_check : ∀ a b : ℤ,
    (fwd_gradients [Node.mul (.var 0 []) (.var 1 [])]
        [Node.var 0 [], Node.var 1 []]
        (some [.fill (some 1) [], .fill (some 0) []]) false).map
      (evalG (fun i => if i = 0 then [some a] else [some b])) =
      [some [some b]] ∧
    (fwd_gradients [Node.mul (.var 0 []) (.var 1 [])]
        [Node.var 0 [], Node.var 1 []]
        (some [.fill (some 0) [], .fill (some 1) []]) false).map
      (evalG (fun i => if i = 0 then [some a] else [some b])) =
      [some [some a]] := by
  intro a b
  constructor
  · rw [show fwd_gradients [Node.mul (.var 0 []) (.var 1 [])]
        [Node.var 0 [], Node.var 1 []]
        (some [.fill (some 1) [], .fill (some 0) []]) false =
        [some (.dense (.add (.mul (.fill (some 1) []) (.var 1 []))
          (.mul (.fill (some 0) []) (.var 0 []))))] from by decide]
    simp [evalG, to_dense, evalV, scAdd, scMul]
  · rw [show fwd_gradients [Node.mul (.var 0 []) (.var 1 [])]
        [Node.var 0 [], Node.var 1 []]
        (some [.fill (some 0) [], .fill (some 1) []]) false =
        [some (.dense (.add (.mul (.fill (some 0) []) (.var 1 []))
          (.mul (.fill (some 1) []) (.var 0 []))))] from by decide]
    simp [evalG, to_dense, evalV, scAdd, scMul]

/-! ### Independence handling: an x influencing no y -/

theorem gateAll_middle_none (C₁ C₂ : List (Option Node)) (b : Node) :
    gateAll (C₁ ++ none :: C₂) b = gateAll (C₁ ++ C₂) b := by
  induction C₁ with
  | nil => rfl
  | cons o os ih =>
    rw [List.cons_append, gateAll_cons, List.cons_append, gateAll_cons, ih]

/-- Instrumenting a dydxs list with an absent middle entry yields the
same instrumented entries as instrumenting the list without it, with the
absent entry kept in place. -/
theorem instrument_middle_none (au : Bool) (C₁ C₂ : List (Option Node)) :
    ∃ I₁ I₂ : List (Option Node),
      instrument au (C₁ ++ none :: C₂) = I₁ ++ none :: I₂ ∧
      instrument au (C₁ ++ C₂) = I₁ ++ I₂ ∧
      I₁.length = C₁.length := by
  cases au with
  | false => exact ⟨C₁, C₂, rfl, rfl, rfl⟩
  | true =>
    refine ⟨C₁.map (Option.map (fun n => .gated
        (gateAll (C₁ ++ C₂) (.assertNode false)) n)),
      C₂.map (Option.map (fun n => .gated
        (gateAll (C₁ ++ C₂) (.assertNode false)) n)), ?_, ?_, by simp⟩
    · show (C₁ ++ none :: C₂).map (Option.map (fun n => Node.gated
          (gateAll (C₁ ++ none :: C₂) (.assertNode false)) n)) = _
      rw [gateAll_middle_none, List.map_append, List.map_cons]
      rfl
    · show (C₁ ++ C₂).map (Option.map (fun n => Node.gated
          (gateAll (C₁ ++ C₂) (.assertNode false)) n)) = _
      rw [List.map_append]

theorem finalDydxs_append (xs₁ : List Node) (d₁ : List (Option Node))
    (xs₂ : List Node) (d₂ : List (Option Node))
    (h : xs₁.length = d₁.length) :
    finalDydxs (xs₁ ++ xs₂) (d₁ ++ d₂) =
      finalDydxs xs₁ d₁ ++ finalDydxs xs₂ d₂ := by
  induction xs₁ generalizing d₁ with
  | nil =>
    have : d₁ = [] := by
      cases d₁ with
      | nil => rfl
      | cons _ _ => simp at h
    subst this; rfl
  | cons x xs ih =>
    cases d₁ with
    | nil => simp at h
    | cons o os =>
      rw [List.cons_append, List.cons_append, finalDydxs_cons,
        finalDydxs_cons, ih os (by simpa using h), List.cons_append]

theorem finalDydxs_len (xs : List Node) (d : List (Option Node)) :
    (finalDydxs xs d).length = min xs.length d.length := by
  simp [finalDydxs, replaceNone]

theorem gcomb_none_left (g : Option GradVal) : gcomb none g = g := by
  cases g <;> rfl

theorem gcomb_none_right (g : Option GradVal) : gcomb g none = g := by
  cases g <;> rfl

theorem gradOne_append (P₁ P₂ : List (Node × Node)) (t : Node) :
    gradOne (P₁ ++ P₂) t =
      P₁.foldr (fun p acc => gcomb (vjp t p.2 p.1) acc) (gradOne P₂ t) := by
  simp [gradOne, List.foldr_append]

theorem gradOne_middle_none (P₁ P₂ : List (Node × Node)) (q : Node × Node)
    (t : Node) (hq : vjp t q.2 q.1 = none) :
    gradOne (P₁ ++ q :: P₂) t = gradOne (P₁ ++ P₂) t := by
  rw [gradOne_append, gradOne_append]
  congr 1
  rw [gradOne_cons, hq, gcomb_none_left]

/-- Core of the independence property: when x influences no y, the
processed intermediate for xs with x inserted is the processed
intermediate without it, with zeros_like x substituted in place. -/
theorem fwd_middle_core (ys xs₁ xs₂ : List Node) (x : Node) (au : Bool)
    (hind : gradOne (ys.zip (mkUs ys)) x = none) :
    ∃ F₁ F₂ : List Node,
      fwd_dydxs ys (xs₁ ++ x :: xs₂) au = F₁ ++ zeros_like x :: F₂ ∧
      fwd_dydxs ys (xs₁ ++ xs₂) au = F₁ ++ F₂ ∧
      F₁.length = xs₁.length := by
  have hCL : (gradients ys (xs₁ ++ x :: xs₂) (some (mkUs ys))).map
      convertGrad =
      ((xs₁.map (gradOne (ys.zip (mkUs ys)))).map convertGrad) ++ none ::
        ((xs₂.map (gradOne (ys.zip (mkUs ys)))).map convertGrad) := by
    show ((xs₁ ++ x :: xs₂).map (gradOne (ys.zip (mkUs ys)))).map
        convertGrad = _
    rw [List.map_append, List.map_cons, List.map_append, List.map_cons, hind]
    rfl
  have hCR : (gradients ys (xs₁ ++ xs₂) (some (mkUs ys))).map convertGrad =
      ((xs₁.map (gradOne (ys.zip (mkUs ys)))).map convertGrad) ++
        ((xs₂.map (gradOne (ys.zip (mkUs ys)))).map convertGrad) := by
    show ((xs₁ ++ xs₂).map (gradOne (ys.zip (mkUs ys)))).map convertGrad = _
    rw [List.map_append, List.map_append]
  obtain ⟨I₁, I₂, hI1, hI2, hIlen⟩ := instrument_middle_none au
    ((xs₁.map (gradOne (ys.zip (mkUs ys)))).map convertGrad)
    ((xs₂.map (gradOne (ys.zip (mkUs ys)))).map convertGrad)
  have hlen1 : xs₁.length = I₁.length := by
    rw [hIlen]; simp
  refine ⟨finalDydxs xs₁ I₁, finalDydxs xs₂ I₂, ?_, ?_, ?_⟩
  · show finalDydxs (xs₁ ++ x :: xs₂)
      (instrument au ((gradients ys (xs₁ ++ x :: xs₂)
        (some (mkUs ys))).map convertGrad)) = _
    rw [hCL, hI1, finalDydxs_append _ _ _ _ hlen1, finalDydxs_cons]
  · show finalDydxs (xs₁ ++ xs₂)
      (instrument au ((gradients ys (xs₁ ++ xs₂)
        (some (mkUs ys))).map convertGrad)) = _
    rw [hCR, hI2, finalDydxs_append _ _ _ _ hlen1]
  · rw [finalDydxs_len, ← hlen1, Nat.min_self]

/-- C5.  When some x in xs influences no y, fwd_gradients still returns
(the embedding is total), the missing first-pass derivative for that x is
replaced by a zero tensor shaped like x at x's position, and the overall
result equals the result of the call with that x (and its seed, when
given) simply absent — both with an explicit grad_xs and with the default
seeds. -/
theorem c5_independence (ys xs₁ xs₂ : List Node) (x : Node)
    (g₁ g₂ : List Node) (gx : Node) (au : Bool)
    (hind : gradOne (ys.zip (mkUs ys)) x = none)
    (hlen : xs₁.length = g₁.length) :
    (∃ F₁ F₂ : List Node,
      fwd_dydxs ys (xs₁ ++ x :: xs₂) au = F₁ ++ zeros_like x :: F₂ ∧
      F₁.length = xs₁.length) ∧
    fwd_gradients ys (xs₁ ++ x :: xs₂) (some (g₁ ++ gx :: g₂)) au =
      fwd_gradients ys (xs₁ ++ xs₂) (some (g₁ ++ g₂)) au ∧
    fwd_gradients ys (xs₁ ++ x :: xs₂) none au =
      fwd_gradients ys (xs₁ ++ xs₂) none au := by
  obtain ⟨F₁, F₂, hL, hR, hF1⟩ := fwd_middle_core ys xs₁ xs₂ x au hind
  have hgr : ∀ (D : List Node) (gxs : Option (List Node)),
      gradients D (mkUs ys) gxs =
        (mkUs ys).map (gradOne (D.zip (gxs.getD (D.map ones_like)))) :=
    fun D gxs => rfl
  refine ⟨⟨F₁, F₂, hL, hF1⟩, ?_, ?_⟩
  · show gradients (fwd_dydxs ys (xs₁ ++ x :: xs₂) au) (mkUs ys) _ =
      gradients (fwd_dydxs ys (xs₁ ++ xs₂) au) (mkUs ys) _
    rw [hL, hR, hgr, hgr, Option.getD_some, Option.getD_some,
      List.zip_append (by rw [hF1, hlen]), List.zip_cons_cons,
      List.zip_append (by rw [hF1, hlen])]
    refine List.map_congr_left ?_
    intro u hu
    obtain ⟨i, s, rfl⟩ := mem_mkUs_dual hu
    exact gradOne_middle_none _ _ _ _ (vjp_fill _ _ _ _ (by simp))
  · show gradients (fwd_dydxs ys (xs₁ ++ x :: xs₂) au) (mkUs ys) none =
      gradients (fwd_dydxs ys (xs₁ ++ xs₂) au) (mkUs ys) none
    rw [hL, hR, hgr, hgr, Option.getD_none, Option.getD_none,
      List.map_append, List.map_cons, List.map_append,
      List.zip_append (by simp), List.zip_cons_cons,
      List.zip_append (by simp)]
    refine List.map_congr_left ?_
    intro u hu
    obtain ⟨i, s, rfl⟩ := mem_mkUs_dual hu
    exact gradOne_middle_none _ _ _ _ (vjp_fill _ _ _ _ (by simp))

/-- Witness for C5: a third input that influences nothing is dropped from
the result. -/
theorem c5_independence_witness :
    (gradOne ([Node.mul (.var 0 []) (.var 1 [])].zip
        (mkUs [Node.mul (.var 0 []) (.var 1 [])])) (Node.var 2 []) = none ∧
      [Node.var 0 []].length = [Node.fill (some 1) []].length) ∧
    ((∃ F₁ F₂ : List Node,
      fwd_dydxs [Node.mul (.var 0 []) (.var 1 [])]
          ([Node.var 0 []] ++ Node.var 2 [] :: [Node.var 1 []]) false =
        F₁ ++ zeros_like (Node.var 2 []) :: F₂ ∧
      F₁.length = [Node.var 0 []].length) ∧
    fwd_gradients [Node.mul (.var 0 []) (.var 1 [])]
        ([Node.var 0 []] ++ Node.var 2 [] :: [Node.var 1 []])
        (some ([Node.fill (some 1) []] ++ Node.fill (some 7) [] ::
          [Node.fill (some 0) []])) false =
      fwd_gradients [Node.mul (.var 0 []) (.var 1 [])]
        ([Node.var 0 []] ++ [Node.var 1 []])
        (some ([Node.fill (some 1) []] ++ [Node.fill (some 0) []])) false ∧
    fwd_gradients [Node.mul (.var 0 []) (.var 1 [])]
        ([Node.var 0 []] ++ Node.var 2 [] :: [Node.var 1 []]) none false =
      fwd_gradients [Node.mul (.var 0 []) (.var 1 [])]
        ([Node.var 0 []] ++ [Node.var 1 []]) none false) :=
  ⟨⟨by decide, by decide⟩,
    c5_independence _ _ _ _ _ _ _ false (by decide) (by decide)⟩

/-- Witness for C6 at the product graph: identical results under both
assert modes, and the concrete instrumented intermediate fails to
evaluate. -/
theorem c6_assert_mode_witness :
    fwd_gradients [Node.mul (.var 0 []) (.var 1 [])]
        [Node.var 0 [], Node.var 1 []]
        (some [Node.fill (some 1) [], Node.fill (some 0) []]) true =
      fwd_gradients [Node.mul (.var 0 []) (.var 1 [])]
        [Node.var 0 [], Node.var 1 []]
        (some [Node.fill (some 1) [], Node.fill (some 0) []]) false ∧
    evalOK (fun i => if i = 0 then [some 3] else [some 5])
      (.gated
        (.gated (.mul (.dual 0 []) (.var 1 []))
          (.gated (.mul (.dual 0 []) (.var 0 [])) (.assertNode false)))
        (.mul (.dual 0 []) (.var 1 []))) = false :=
  ⟨(c6_assert_mode _ _ _).1,
    (c6_assert_mode [Node.mul (.var 0 []) (.var 1 [])]
        [Node.var 0 [], Node.var 1 []]
        (some [Node.fill (some 1) [], Node.fill (some 0) []])).2
      (fun i => if i = 0 then [some 3] else [some 5]) 0 _ (by decide)⟩

/-! ### Sparse results, raw second-pass output, and graph effects -/

/-- C7.  For every call: position by position, an indexed-slices entry of
the first reverse-mode pass is converted to its dense scatter form, while
dense entries and absent entries pass through unchanged; and this
conversion happens before any further use — fwd_gradients factors through
the converted, tensor-typed list, which is what the assertion
instrumentation, the None replacement, the shape-setting and the second
reverse-mode call consume, under both assert modes, with the final result
always produced (the embedding of the pipeline is total, so the situation
never surfaces as an error).  Non-vacuity: at a concrete call whose first
pass returns a sparse (gather) entry next to a dense one, with
assert_unused=true so the instrumentation consumes the converted list,
the final result evaluates to the correct directional derivative. -/
theorem c7_sparse_conversion :
    (∀ (ys xs : List Node) (i : Nat) (idx : List Nat) (v : Node)
        (sh : List Nat),
      (gradients ys xs (some (mkUs ys)))[i]? =
          some (some (.sparse idx v sh)) →
      ((gradients ys xs (some (mkUs ys))).map convertGrad)[i]? =
        some (some (.scatter idx v sh))) ∧
    (∀ (ys xs : List Node) (i : Nat) (n : Node),
      (gradients ys xs (some (mkUs ys)))[i]? = some (some (.dense n)) →
      ((gradients ys xs (some (mkUs ys))).map convertGrad)[i]? =
        some (some n)) ∧
    (∀ (ys xs : List Node) (i : Nat),
      (gradients ys xs (some (mkUs ys)))[i]? = some none →
      ((gradients ys xs (some (mkUs ys))).map convertGrad)[i]? =
        some none) ∧
    (∀ (ys xs : List Node) (grad_xs : Option (List Node)) (au : Bool),
      fwd_gradients ys xs grad_xs au =
        gradients
          (finalDydxs xs
            (instrument au
              ((gradients ys xs (some (mkUs ys))).map convertGrad)))
          (mkUs ys) grad_xs) ∧
    gradients
        [Node.gather (.var 0 [3]) [2, 0], Node.mul (.var 1 []) (.var 1 [])]
        [Node.var 0 [3], Node.var 1 []]
        (some (mkUs [Node.gather (.var 0 [3]) [2, 0],
          Node.mul (.var 1 []) (.var 1 [])])) =
      [some (.sparse [2, 0] (.dual 0 [2]) [3]),
       some (.dense (.add (.mul (.dual 1 []) (.var 1 []))
         (.mul (.dual 1 []) (.var 1 []))))] ∧
    (gradients
        [Node.gather (.var 0 [3]) [2, 0], Node.mul (.var 1 []) (.var 1 [])]
        [Node.var 0 [3], Node.var 1 []]
        (some (mkUs [Node.gather (.var 0 [3]) [2, 0],
          Node.mul (.var 1 []) (.var 1 [])]))).map convertGrad =
      [some (.scatter [2, 0] (.dual 0 [2]) [3]),
       some (.add (.mul (.dual 1 []) (.var 1 []))
         (.mul (.dual 1 []) (.var 1 [])))] ∧
    (fwd_gradients
        [Node.gather (.var 0 [3]) [2, 0], Node.mul (.var 1 []) (.var 1 [])]
        [Node.var 0 [3], Node.var 1 []]
        (some [.fill (some 1) [3], .fill (some 1) []]) true).map
      (evalG (fun i => if i = 0 then [some 5, some 6, some 7] else [some 4]))
      = [some [some 1, some 1], some [some 8]] := by
  refine ⟨?_, ?_, ?_, ?_, by decide, by decide, by decide⟩
  · intro ys xs i idx v sh h
    rw [List.getElem?_map, h]
    rfl
  · intro ys xs i n h
    rw [List.getElem?_map, h]
    rfl
  · intro ys xs i h
    rw [List.getElem?_map, h]
    rfl
  · intro ys xs grad_xs au
    rfl

/-- Witness for C7: the pointwise conversion statements applied at the
concrete call whose first pass yields a sparse entry (position 0) next to
a dense one (position 1). -/
theorem c7_sparse_conversion_witness :
    ((gradients
        [Node.gather (.var 0 [3]) [2, 0], Node.mul (.var 1 []) (.var 1 [])]
        [Node.var 0 [3], Node.var 1 []]
        (some (mkUs [Node.gather (.var 0 [3]) [2, 0],
          Node.mul (.var 1 []) (.var 1 [])])))[0]? =
        some (some (.sparse [2, 0] (.dual 0 [2]) [3])) ∧
      (gradients
        [Node.gather (.var 0 [3]) [2, 0], Node.mul (.var 1 []) (.var 1 [])]
        [Node.var 0 [3], Node.var 1 []]
        (some (mkUs [Node.gather (.var 0 [3]) [2, 0],
          Node.mul (.var 1 []) (.var 1 [])])))[1]? =
        some (some (.dense (.add (.mul (.dual 1 []) (.var 1 []))
          (.mul (.dual 1 []) (.var 1 [])))))) ∧
    ((gradients
        [Node.gather (.var 0 [3]) [2, 0], Node.mul (.var 1 []) (.var 1 [])]
        [Node.var 0 [3], Node.var 1 []]
        (some (mkUs [Node.gather (.var 0 [3]) [2, 0],
          Node.mul (.var 1 []) (.var 1 [])]))).map convertGrad)[0]? =
      some (some (.scatter [2, 0] (.dual 0 [2]) [3])) ∧
    ((gradients
        [Node.gather (.var 0 [3]) [2, 0], Node.mul (.var 1 []) (.var 1 [])]
        [Node.var 0 [3], Node.var 1 []]
        (some (mkUs [Node.gather (.var 0 [3]) [2, 0],
          Node.mul (.var 1 []) (.var 1 [])]))).map convertGrad)[1]? =
      some (some (.add (.mul (.dual 1 []) (.var 1 []))
        (.mul (.dual 1 []) (.var 1 [])))) :=
  ⟨⟨by decide, by decide⟩,
    c7_sparse_conversion.1
      [Node.gather (.var 0 [3]) [2, 0], Node.mul (.var 1 []) (.var 1 [])]
      [Node.var 0 [3], Node.var 1 []] 0 [2, 0] (.dual 0 [2]) [3]
      (by decide),
    c7_sparse_conversion.2.1
      [Node.gather (.var 0 [3]) [2, 0], Node.mul (.var 1 []) (.var 1 [])]
      [Node.var 0 [3], Node.var 1 []] 1
      (.add (.mul (.dual 1 []) (.var 1 [])) (.mul (.dual 1 []) (.var 1 [])))
      (by decide)⟩

/-- C10.  The returned dysdx is the raw output of the second reverse-mode
call: at a call where the second y depends on no x, its None entry leaks
into the final result (no zero substitution on the way out), and at a
call where the second differentiation itself produces an indexed-slices
value, the sparse entry leaks into the final result (no densification on
the way out). -/
theorem c10_raw_second_pass :
    fwd_gradients [Node.var 0 [], Node.var 1 []] [Node.var 0 []] none
        false =
      [some (.dense (.fill (some 1) [])), none] ∧
    fwd_gradients [Node.scatter [2, 0] (.var 0 [2]) [3]] [Node.var 0 [2]]
        (some [.fill (some 1) [2]]) false =
      [some (.sparse [2, 0] (.fill (some 1) [2]) [3])] :=
  ⟨by decide, by decide⟩

/-- The graph-registering form of fwd_gradients.  Modelled from the spec:
the ambient computation graph ("implicitly-threaded global state" that the
function "mutates by registering new nodes") is made explicit as the list
of registered nodes, and each construction step appends the root nodes of
the subgraphs it creates: the dual placeholders, the first
differentiation subgraph (with its conversions), the optional
assertion-gated identities, the replaced and shape-forced dydxs, and the
second differentiation subgraph. -/
def fwd_gradients_graph (g : List Node) (ys xs : List Node)
    (grad_xs : Option (List Node)) (assert_unused : Bool) :
    List Node × List (Option GradVal) :=
  let us := mkUs ys
  let g := g ++ us
  let dydxs := (gradients ys xs (some us)).map convertGrad
  let g := g ++ dydxs.filterMap id
  let dydxs2 := instrument assert_unused dydxs
  let g := g ++ (if assert_unused then dydxs2.filterMap id else [])
  let dydxs3 := finalDydxs xs dydxs2
  let g := g ++ dydxs3
  let dysdx := gradients dydxs3 us grad_xs
  let g := g ++ dysdx.filterMap (Option.map to_dense)
  (g, dysdx)

/-- C8.  fwd_gradients is pure with respect to caller data: in the
embedding, ys, xs and grad_xs are immutable values, and the result is a
function of them alone — in particular it does not depend on the ambient
graph.  Its only graph effect is registration: for every initial graph,
the graph-registering form returns exactly the pure result together with
a final graph that extends the initial graph by the newly created
nodes. -/
theorem c8_graph_effects (g : List Node) (ys xs : List Node)
    (grad_xs : Option (List Node)) (au : Bool) :
    (fwd_gradients_graph g ys xs grad_xs au).2 =
      fwd_gradients ys xs grad_xs au ∧
    ∃ new : List Node,
      (fwd_gradients_graph g ys xs grad_xs au).1 = g ++ new := by
  constructor
  · rfl
  · refine ⟨mkUs ys ++
      (List.filterMap id
        ((gradients ys xs (some (mkUs ys))).map convertGrad) ++
        ((if au = true then
            List.filterMap id
              (instrument au
                ((gradients ys xs (some (mkUs ys))).map convertGrad))
          else []) ++
          (finalDydxs xs
              (instrument au
                ((gradients ys xs (some (mkUs ys))).map convertGrad)) ++
            List.filterMap (Option.map to_dense)
              (gradients
                (finalDydxs xs
                  (instrument au
                    ((gradients ys xs (some (mkUs ys))).map convertGrad)))
                (mkUs ys) grad_xs)))), ?_⟩
    simp only [fwd_gradients_graph, List.append_assoc]

/-! ### Linearity of the result in the directional seed -/

theorem scMul_assoc (a b c : Sc) :
    scMul (scMul a b) c = scMul a (scMul b c) := by
  cases a <;> cases b <;> cases c <;> simp [scMul, Int.mul_assoc]

theorem scMul_scAdd (k a b : Sc) :
    scMul k (scAdd a b) = scAdd (scMul k a) (scMul k b) := by
  cases k <;> cases a <;> cases b <;> simp [scMul, scAdd, Int.mul_add]

theorem scMul_none (a : Sc) : scMul a none = none := by
  cases a <;> rfl

theorem zipWith_scAdd_map (c : ℤ) (l m : List Sc) :
    List.zipWith scAdd (l.map (scMul (some c))) (m.map (scMul (some c))) =
      (List.zipWith scAdd l m).map (scMul (some c)) := by
  induction l generalizing m with
  | nil => simp
  | cons a l' ih =>
    cases m with
    | nil => simp
    | cons b m' => simp [ih, scMul_scAdd]

theorem zipWith_scMul_map_left (c : ℤ) (l m : List Sc) :
    List.zipWith scMul (l.map (scMul (some c))) m =
      (List.zipWith scMul l m).map (scMul (some c)) := by
  induction l generalizing m with
  | nil => simp
  | cons a l' ih =>
    cases m with
    | nil => simp
    | cons b m' => simp [ih, scMul_assoc]

theorem getD_map_scMul (c : ℤ) (l : List Sc) (i : Nat) :
    (l.map (scMul (some c))).getD i none = scMul (some c) (l.getD i none) := by
  induction l generalizing i with
  | nil => simp [scMul]
  | cons a l' ih =>
    cases i with
    | zero => simp
    | succ j => simpa using ih j

theorem map_scMul_replicate_zero (c : ℤ) (n : Nat) :
    (List.replicate n (some (0 : ℤ))).map (scMul (some c)) =
      List.replicate n (some (0 : ℤ)) := by
  simp [List.map_replicate, scMul]

theorem scatterData_map (c : ℤ) :
    ∀ (idx : List Nat) (v acc : List Sc),
    scatterData idx (v.map (scMul (some c))) (acc.map (scMul (some c))) =
      (scatterData idx v acc).map (scMul (some c)) := by
  intro idx
  induction idx with
  | nil => intro v acc; cases v <;> rfl
  | cons i is ih =>
    intro v acc
    cases v with
    | nil => rfl
    | cons v0 vs =>
      show scatterData is (vs.map (scMul (some c)))
          (((acc.map (scMul (some c))).set i
            (scAdd ((acc.map (scMul (some c))).getD i none)
              (scMul (some c) v0)))) = _
      rw [getD_map_scMul, ← scMul_scAdd, ← List.map_set, ih]
      rfl

/-- Option-level scaling relation on gradient entries. -/
theorem evalG_none (env : Nat → List Sc) : evalG env none = none := rfl

theorem evalG_some (env : Nat → List Sc) (g : GradVal) :
    evalG env (some g) = some (evalV env (to_dense g)) := rfl

theorem gcomb_linear (env : Nat → List Sc) (c : ℤ)
    {o₁ o₂ p₁ p₂ : Option GradVal}
    (hA : evalG env o₂ = (evalG env o₁).map (List.map (scMul (some c))))
    (hB : evalG env p₂ = (evalG env p₁).map (List.map (scMul (some c)))) :
    evalG env (gcomb o₂ p₂) =
      (evalG env (gcomb o₁ p₁)).map (List.map (scMul (some c))) := by
  cases o₁ with
  | none =>
    have ho₂ : o₂ = none := by
      have := hA
      rw [evalG_none] at this
      simp only [Option.map_none'] at this
      cases o₂ with
      | none => rfl
      | some g => rw [evalG_some] at this; cases this
    subst ho₂
    rw [gcomb_none_left, gcomb_none_left]
    exact hB
  | some a₁ =>
    cases o₂ with
    | none => rw [evalG_none, evalG_some] at hA; cases hA
    | some a₂ =>
      rw [evalG_some, evalG_some] at hA
      have hAv : evalV env (to_dense a₂) =
          (evalV env (to_dense a₁)).map (scMul (some c)) := by
        simpa using hA
      cases p₁ with
      | none =>
        have hp₂ : p₂ = none := by
          have := hB
          rw [evalG_none] at this
          simp only [Option.map_none'] at this
          cases p₂ with
          | none => rfl
          | some g => rw [evalG_some] at this; cases this
        subst hp₂
        rw [gcomb_none_right, gcomb_none_right]
        exact hA
      | some b₁ =>
        cases p₂ with
        | none => rw [evalG_none, evalG_some] at hB; cases hB
        | some b₂ =>
          rw [evalG_some, evalG_some] at hB
          have hBv : evalV env (to_dense b₂) =
              (evalV env (to_dense b₁)).map (scMul (some c)) := by
            simpa using hB
          show evalG env (some (.dense (.add (to_dense a₂) (to_dense b₂)))) =
            (evalG env (some (.dense (.add (to_dense a₁)
              (to_dense b₁))))).map (List.map (scMul (some c)))
          rw [evalG_some, evalG_some]
          show some (List.zipWith scAdd (evalV env (to_dense a₂))
              (evalV env (to_dense b₂))) = _
          rw [hAv, hBv, zipWith_scAdd_map]
          rfl

theorem vjp_linear (env : Nat → List Sc) (c : ℤ) (y : Node) :
    ∀ (t s₁ s₂ : Node),
    evalV env s₂ = (evalV env s₁).map (scMul (some c)) →
    evalG env (vjp t s₂ y) =
      (evalG env (vjp t s₁ y)).map (List.map (scMul (some c))) := by
  induction y with
  | var i s =>
    intro t s₁ s₂ hs
    by_cases h : Node.var i s = t
    · subst h
      rw [vjp_self, vjp_self, evalG_some, evalG_some]
      show some (evalV env s₂) =
        Option.map (List.map (scMul (some c))) (some (evalV env s₁))
      rw [hs]
      rfl
    · rw [vjp_var _ _ _ _ h, vjp_var _ _ _ _ h]; rfl
  | dual i s =>
    intro t s₁ s₂ hs
    by_cases h : Node.dual i s = t
    · subst h
      rw [vjp_self, vjp_self, evalG_some, evalG_some]
      show some (evalV env s₂) =
        Option.map (List.map (scMul (some c))) (some (evalV env s₁))
      rw [hs]
      rfl
    · rw [vjp_dual _ _ _ _ h, vjp_dual _ _ _ _ h]; rfl
  | fill k s =>
    intro t s₁ s₂ hs
    by_cases h : Node.fill k s = t
    · subst h
      rw [vjp_self, vjp_self, evalG_some, evalG_some]
      show some (evalV env s₂) =
        Option.map (List.map (scMul (some c))) (some (evalV env s₁))
      rw [hs]
      rfl
    · rw [vjp_fill _ _ _ _ h, vjp_fill _ _ _ _ h]; rfl
  | assertNode k =>
    intro t s₁ s₂ hs
    by_cases h : Node.assertNode k = t
    · subst h
      rw [vjp_self, vjp_self, evalG_some, evalG_some]
      show some (evalV env s₂) =
        Option.map (List.map (scMul (some c))) (some (evalV env s₁))
      rw [hs]
      rfl
    · rw [vjp_assert _ _ _ h, vjp_assert _ _ _ h]; rfl
  | add a b iha ihb =>
    intro t s₁ s₂ hs
    by_cases h : Node.add a b = t
    · subst h
      rw [vjp_self, vjp_self, evalG_some, evalG_some]
      show some (evalV env s₂) =
        Option.map (List.map (scMul (some c))) (some (evalV env s₁))
      rw [hs]
      rfl
    · rw [vjp_add _ _ _ _ h, vjp_add _ _ _ _ h]
      exact gcomb_linear env c (iha t s₁ s₂ hs) (ihb t s₁ s₂ hs)
  | mul a b iha ihb =>
    intro t s₁ s₂ hs
    by_cases h : Node.mul a b = t
    · subst h
      rw [vjp_self, vjp_self, evalG_some, evalG_some]
      show some (evalV env s₂) =
        Option.map (List.map (scMul (some c))) (some (evalV env s₁))
      rw [hs]
      rfl
    · rw [vjp_mul _ _ _ _ h, vjp_mul _ _ _ _ h]
      have hsa : evalV env (Node.mul s₂ b) =
          (evalV env (Node.mul s₁ b)).map (scMul (some c)) := by
        show List.zipWith scMul (evalV env s₂) (evalV env b) = _
        rw [hs, zipWith_scMul_map_left]
        rfl
      have hsb : evalV env (Node.mul s₂ a) =
          (evalV env (Node.mul s₁ a)).map (scMul (some c)) := by
        show List.zipWith scMul (evalV env s₂) (evalV env a) = _
        rw [hs, zipWith_scMul_map_left]
        rfl
      exact gcomb_linear env c (iha t _ _ hsa) (ihb t _ _ hsb)
  | gather a idx iha =>
    intro t s₁ s₂ hs
    by_cases h : Node.gather a idx = t
    · subst h
      rw [vjp_self, vjp_self, evalG_some, evalG_some]
      show some (evalV env s₂) =
        Option.map (List.map (scMul (some c))) (some (evalV env s₁))
      rw [hs]
      rfl
    · have hscat : evalV env (Node.scatter idx s₂ (shape a)) =
          (evalV env (Node.scatter idx s₁ (shape a))).map
            (scMul (some c)) := by
        show scatterData idx (evalV env s₂)
            (List.replicate (shape a).prod (some 0)) = _
        rw [hs, ← map_scMul_replicate_zero c (shape a).prod,
          scatterData_map]
        rfl
      by_cases ha : a = t
      · rw [vjp_gather_hit _ _ _ _ h ha, vjp_gather_hit _ _ _ _ h ha,
          evalG_some, evalG_some]
        show some (evalV env (Node.scatter idx s₂ (shape a))) = _
        rw [hscat]
        rfl
      · rw [vjp_gather_miss _ _ _ _ h ha, vjp_gather_miss _ _ _ _ h ha]
        exact iha t _ _ hscat
  | scatter idx v sh ihv =>
    intro t s₁ s₂ hs
    by_cases h : Node.scatter idx v sh = t
    · subst h
      rw [vjp_self, vjp_self, evalG_some, evalG_some]
      show some (evalV env s₂) =
        Option.map (List.map (scMul (some c))) (some (evalV env s₁))
      rw [hs]
      rfl
    · rw [vjp_scatter _ _ _ _ _ h, vjp_scatter _ _ _ _ _ h]
      have hg : evalV env (Node.gather s₂ idx) =
          (evalV env (Node.gather s₁ idx)).map (scMul (some c)) := by
        show idx.map (fun i => (evalV env s₂).getD i none) = _
        rw [hs]
        show idx.map
            (fun i => ((evalV env s₁).map (scMul (some c))).getD i none) =
          (idx.map (fun i => (evalV env s₁).getD i none)).map
            (scMul (some c))
        rw [List.map_map]
        refine List.map_congr_left ?_
        intro i _
        exact getD_map_scMul c (evalV env s₁) i
      exact ihv t _ _ hg
  | gated dep x ihd ihx =>
    intro t s₁ s₂ hs
    by_cases h : Node.gated dep x = t
    · subst h
      rw [vjp_self, vjp_self, evalG_some, evalG_some]
      show some (evalV env s₂) =
        Option.map (List.map (scMul (some c))) (some (evalV env s₁))
      rw [hs]
      rfl
    · rw [vjp_gated _ _ _ _ h, vjp_gated _ _ _ _ h]
      exact ihx t s₁ s₂ hs

theorem gradOne_linear (env : Nat → List Sc) (c : ℤ) (t : Node)
    {P₁ P₂ : List (Node × Node)}
    (h : List.Forall₂ (fun p q => p.1 = q.1 ∧
      evalV env q.2 = (evalV env p.2).map (scMul (some c))) P₁ P₂) :
    evalG env (gradOne P₂ t) =
      (evalG env (gradOne P₁ t)).map (List.map (scMul (some c))) := by
  induction h with
  | nil => rfl
  | @cons p q P₁' P₂' hr hrest ih =>
    rw [gradOne_cons, gradOne_cons]
    refine gcomb_linear env c ?_ ih
    rw [← hr.1]
    exact vjp_linear env c p.1 t p.2 q.2 hr.2

theorem zipWith_scMul_replicate (c : ℤ) :
    ∀ (l : List Sc) (n : Nat), l.length = n →
    List.zipWith scMul (List.replicate n (some c)) l =
      l.map (scMul (some c)) := by
  intro l
  induction l with
  | nil => intro n _; simp
  | cons a l' ih =>
    intro n hn
    cases n with
    | zero => simp at hn
    | succ m => simpa [List.replicate] using ih m (by simpa using hn)

theorem scaleN_eval (env : Nat → List Sc) (c : ℤ) (g : Node)
    (h : (evalV env g).length = (shape g).prod) :
    evalV env (scaleN c g) = (evalV env g).map (scMul (some c)) := by
  show List.zipWith scMul (List.replicate (shape g).prod (some c))
    (evalV env g) = _
  exact zipWith_scMul_replicate c (evalV env g) _ h

theorem zip_scale_forall₂ (env : Nat → List Sc) (c : ℤ) :
    ∀ (D gxs : List Node),
    (∀ g ∈ gxs, (evalV env g).length = (shape g).prod) →
    List.Forall₂ (fun p q => p.1 = q.1 ∧
        evalV env q.2 = (evalV env p.2).map (scMul (some c)))
      (D.zip gxs) (D.zip (gxs.map (scaleN c))) := by
  intro D
  induction D with
  | nil => intro gxs _; exact List.Forall₂.nil
  | cons d ds ih =>
    intro gxs hg
    cases gxs with
    | nil => exact List.Forall₂.nil
    | cons g gs =>
      refine List.Forall₂.cons
        ⟨rfl, scaleN_eval env c g (hg g (List.mem_cons_self _ _))⟩
        (ih gs (fun g' hg' => hg g' (List.mem_cons_of_mem _ hg')))

/-- C4.  For a fixed graph and environment, scaling the supplied grad_xs
elementwise by a scalar c scales every entry of the (evaluated) result by
c: the directional derivative is linear in the direction.  Result
entries are graph nodes, so the scaling is stated of their values; the
returned sequences also have equal length by construction. -/
theorem c4_linearity (ys xs gxs : List Node) (c : ℤ) (au : Bool)
    (env : Nat → List Sc)
    (hlen : ∀ g ∈ gxs, (evalV env g).length = (shape g).prod) :
    (fwd_gradients ys xs (some (gxs.map (scaleN c))) au).length =
      (fwd_gradients ys xs (some gxs) au).length ∧
    ∀ i : Nat,
      evalG env
          ((fwd_gradients ys xs (some (gxs.map (scaleN c))) au).getD i none) =
        (evalG env
          ((fwd_gradients ys xs (some gxs) au).getD i none)).map
          (List.map (scMul (some c))) := by
  have hgr : ∀ (gx : List Node),
      fwd_gradients ys xs (some gx) au =
        (mkUs ys).map (gradOne ((fwd_dydxs ys xs au).zip gx)) :=
    fun gx => rfl
  constructor
  · rw [hgr, hgr]; simp
  · intro i
    rw [hgr, hgr, List.getD_eq_getElem?_getD, List.getD_eq_getElem?_getD,
      List.getElem?_map, List.getElem?_map]
    cases hu : (mkUs ys)[i]? with
    | none => rfl
    | some u =>
      show evalG env (gradOne ((fwd_dydxs ys xs au).zip
          (gxs.map (scaleN c))) u) = _
      exact gradOne_linear env c u
        (zip_scale_forall₂ env c (fwd_dydxs ys xs au) gxs hlen)

/-- Witness for C4 on the product graph with c = 3. -/
theorem c4_linearity_witness :
    (∀ g ∈ [Node.fill (some 1) [], Node.fill (some 0) []],
      (evalV (fun i => if i = 0 then [some 3] else [some 5]) g).length =
        (shape g).prod) ∧
    ((fwd_gradients [Node.mul (.var 0 []) (.var 1 [])]
        [Node.var 0 [], Node.var 1 []]
        (some ([Node.fill (some 1) [], Node.fill (some 0) []].map
          (scaleN 3))) false).length =
      (fwd_gradients [Node.mul (.var 0 []) (.var 1 [])]
        [Node.var 0 [], Node.var 1 []]
        (some [Node.fill (some 1) [], Node.fill (some 0) []]) false).length ∧
    ∀ i : Nat,
      evalG (fun i => if i = 0 then [some 3] else [some 5])
          ((fwd_gradients [Node.mul (.var 0 []) (.var 1 [])]
            [Node.var 0 [], Node.var 1 []]
            (some ([Node.fill (some 1) [], Node.fill (some 0) []].map
              (scaleN 3))) false).getD i none) =
        (evalG (fun i => if i = 0 then [some 3] else [some 5])
          ((fwd_gradients [Node.mul (.var 0 []) (.var 1 [])]
            [Node.var 0 [], Node.var 1 []]
            (some [Node.fill (some 1) [], Node.fill (some 0) []])
            false).getD i none)).map (List.map (scMul (some 3)))) :=
  ⟨by decide, c4_linearity _ _ _ 3 false _ (by decide)⟩

end FwdGrad
